import Mathlib

/-!
Verification development for the program-analysis pipeline in
src/program-verification.tsx: a parser, an SSA builder, an SSA optimizer,
and an SMT constraint encoder for verification and equivalence checking.
Each definition below is a shallow embedding of the correspondingly named
function of the source file; JavaScript dynamic values are modelled
explicitly (rationals plus Infinity/NaN/booleans for numbers, an explicit
version type for the SSA version map whose values can be the string
"loop" or NaN).
-/

namespace ProgVer

/-! ## JavaScript object maps

JS objects used as maps (`variables`, `constants`, `useCounts`,
`lastAssignments`) are insertion-ordered: updating an existing key keeps
its position, a new key is appended.  `Object.keys` enumerates keys in
that order. -/

def objGet {α : Type} (m : List (String × α)) (k : String) : Option α :=
  match m with
  | [] => none
  | (k', v) :: rest => if k' = k then some v else objGet rest k

def objSet {α : Type} (m : List (String × α)) (k : String) (v : α) :
    List (String × α) :=
  match m with
  | [] => [(k, v)]
  | (k', v') :: rest =>
      if k' = k then (k, v) :: rest else (k', v') :: objSet rest k v

/-- `Object.assign(target, source)`: copy every binding of `source` into
`target` in the source's key order; keys of `target` absent from `source`
are untouched. -/
def objAssign {α : Type} (target source : List (String × α)) :
    List (String × α) :=
  source.foldl (fun t p => objSet t p.1 p.2) target

/-! ## JavaScript string helpers

Implemented by structural recursion over the character list so that all
concrete evaluations reduce definitionally. -/

def listStartsWith : List Char → List Char → Bool
  | _, [] => true
  | [], _ :: _ => false
  | c :: cs, p :: ps => c = p && listStartsWith cs ps

def listContainsSub : List Char → List Char → Bool
  | [], sub => sub.isEmpty
  | c :: cs, sub => listStartsWith (c :: cs) sub || listContainsSub cs sub

/-- JS `String.prototype.includes`. -/
def jsIncludes (s sub : String) : Bool :=
  listContainsSub s.data sub.data

/-- JS `String.prototype.startsWith`. -/
def jsStartsWith (s pre : String) : Bool :=
  listStartsWith s.data pre.data

def splitOnAux (sep : List Char) : Nat → List Char → List Char →
    List (List Char)
  | 0, acc, rest => [acc.reverse ++ rest]
  | _ + 1, acc, [] => [acc.reverse]
  | fuel + 1, acc, c :: cs =>
      if listStartsWith (c :: cs) sep then
        acc.reverse :: splitOnAux sep fuel [] ((c :: cs).drop sep.length)
      else
        splitOnAux sep fuel (c :: acc) cs

/-- JS `String.prototype.split` with a non-empty string separator. -/
def jsSplit (s sep : String) : List String :=
  if sep.data.isEmpty then [s]
  else (splitOnAux sep.data (s.data.length + 1) [] s.data).map String.mk

def isWS (c : Char) : Bool :=
  c = ' ' || c = '\t' || c = '\n' || c = '\r'

/-- JS `String.prototype.trim`. -/
def jsTrim (s : String) : String :=
  String.mk (((s.data.dropWhile isWS).reverse.dropWhile isWS).reverse)

/-- JS `str.replace(/;$/, "")`: drop one trailing semicolon. -/
def jsStripTrailingSemi (s : String) : String :=
  match s.data.reverse with
  | ';' :: rest => String.mk rest.reverse
  | _ => s

/-- Join with newlines, as in `body.join("\n")`. -/
def joinNL : List String → String
  | [] => ""
  | [x] => x
  | x :: xs => x ++ "\n" ++ joinNL xs

/-! ## JavaScript numbers and values

The optimizer folds constants with `eval`, i.e. with JavaScript number
semantics: `/` is non-truncating (double) division, division by zero
yields `Infinity`/`-Infinity`/`NaN` instead of throwing, comparisons
yield booleans.  We model finite JS numbers by rationals (in lowest
terms, positive denominator) extended with the special values; for the
small integer literals this program manipulates, double arithmetic is
exact, so the rational model is faithful. -/

structure JQ where
  num : ℤ
  den : ℕ
deriving DecidableEq, Repr

def JQ.ofInt (n : ℤ) : JQ := ⟨n, 1⟩

/-- Normalize a fraction with positive denominator to lowest terms. -/
def JQ.mkQ (n : ℤ) (d : ℕ) : JQ :=
  let g := Nat.gcd n.natAbs d
  if g = 0 then ⟨0, 1⟩ else ⟨Int.tdiv n (g : ℤ), d / g⟩

def JQ.addQ (a b : JQ) : JQ :=
  JQ.mkQ (a.num * (b.den : ℤ) + b.num * (a.den : ℤ)) (a.den * b.den)

def JQ.negQ (a : JQ) : JQ := ⟨-a.num, a.den⟩

def JQ.subQ (a b : JQ) : JQ := JQ.addQ a (JQ.negQ b)

def JQ.mulQ (a b : JQ) : JQ := JQ.mkQ (a.num * b.num) (a.den * b.den)

/-- Exact division; only called with `b ≠ 0`. -/
def JQ.divQ (a b : JQ) : JQ :=
  if b.num < 0 then JQ.mkQ (-(a.num * (b.den : ℤ))) (a.den * b.num.natAbs)
  else JQ.mkQ (a.num * (b.den : ℤ)) (a.den * b.num.natAbs)

def JQ.ltQ (a b : JQ) : Bool := a.num * (b.den : ℤ) < b.num * (a.den : ℤ)

def JQ.leQ (a b : JQ) : Bool := a.num * (b.den : ℤ) ≤ b.num * (a.den : ℤ)

def JQ.eqQ (a b : JQ) : Bool := a.num * (b.den : ℤ) = b.num * (a.den : ℤ)

/-- Truncation toward zero, as used by JS `%` (the remainder keeps the
dividend's sign). -/
def JQ.truncQ (a : JQ) : ℤ := Int.tdiv a.num (a.den : ℤ)

inductive JSNum where
  | rat (q : JQ)
  | inf
  | neginf
  | nan
deriving DecidableEq, Repr

inductive JSVal where
  | num (n : JSNum)
  | boolean (b : Bool)
deriving DecidableEq, Repr

/-- JS `ToNumber` on the values arising here (numbers and booleans). -/
def JSVal.toNum : JSVal → JSNum
  | .num n => n
  | .boolean true => .rat (JQ.ofInt 1)
  | .boolean false => .rat (JQ.ofInt 0)

def jsNeg : JSNum → JSNum
  | .rat q => .rat q.negQ
  | .inf => .neginf
  | .neginf => .inf
  | .nan => .nan

def jsAdd : JSNum → JSNum → JSNum
  | .nan, _ => .nan
  | _, .nan => .nan
  | .inf, .neginf => .nan
  | .neginf, .inf => .nan
  | .inf, _ => .inf
  | _, .inf => .inf
  | .neginf, _ => .neginf
  | _, .neginf => .neginf
  | .rat a, .rat b => .rat (a.addQ b)

def jsSub (a b : JSNum) : JSNum := jsAdd a (jsNeg b)

def jsMul : JSNum → JSNum → JSNum
  | .nan, _ => .nan
  | _, .nan => .nan
  | .inf, .inf => .inf
  | .inf, .neginf => .neginf
  | .neginf, .inf => .neginf
  | .neginf, .neginf => .inf
  | .inf, .rat q =>
      if q.num = 0 then .nan else if q.num < 0 then .neginf else .inf
  | .rat q, .inf =>
      if q.num = 0 then .nan else if q.num < 0 then .neginf else .inf
  | .neginf, .rat q =>
      if q.num = 0 then .nan else if q.num < 0 then .inf else .neginf
  | .rat q, .neginf =>
      if q.num = 0 then .nan else if q.num < 0 then .inf else .neginf
  | .rat a, .rat b => .rat (a.mulQ b)

def jsDiv : JSNum → JSNum → JSNum
  | .nan, _ => .nan
  | _, .nan => .nan
  | .inf, .inf => .nan
  | .inf, .neginf => .nan
  | .neginf, .inf => .nan
  | .neginf, .neginf => .nan
  | .inf, .rat q => if q.num < 0 then .neginf else .inf
  | .neginf, .rat q => if q.num < 0 then .inf else .neginf
  | .rat _, .inf => .rat (JQ.ofInt 0)
  | .rat _, .neginf => .rat (JQ.ofInt 0)
  | .rat a, .rat b =>
      if b.num = 0 then
        if 0 < a.num then .inf else if a.num < 0 then .neginf else .nan
      else .rat (a.divQ b)

def jsMod : JSNum → JSNum → JSNum
  | .nan, _ => .nan
  | _, .nan => .nan
  | .inf, _ => .nan
  | .neginf, _ => .nan
  | .rat a, .inf => .rat a
  | .rat a, .neginf => .rat a
  | .rat a, .rat b =>
      if b.num = 0 then .nan
      else .rat (a.subQ (b.mulQ (JQ.ofInt ((a.divQ b).truncQ))))

def jsLt : JSNum → JSNum → Bool
  | .nan, _ => false
  | _, .nan => false
  | .inf, _ => false
  | _, .inf => true
  | _, .neginf => false
  | .neginf, _ => true
  | .rat a, .rat b => a.ltQ b

def jsLe : JSNum → JSNum → Bool
  | .nan, _ => false
  | _, .nan => false
  | _, .inf => true
  | .inf, _ => false
  | .neginf, _ => true
  | _, .neginf => false
  | .rat a, .rat b => a.leQ b

def jsEqNum : JSNum → JSNum → Bool
  | .nan, _ => false
  | _, .nan => false
  | .inf, .inf => true
  | .neginf, .neginf => true
  | .rat a, .rat b => a.eqQ b
  | _, _ => false

/-- The `eval` call of `optimizeSSA`'s `propagateConstants`:
`eval(left.value + " " + op + " " + right.value)` over the fixed operator
set of the language.  `none` models an exception (caught by the
surrounding try/catch); for the fixed operators and numeric/boolean
operands `eval` never throws, so `none` only arises for an operator
outside the language's set. -/
def jsEvalOpt (op : String) (a b : JSVal) : Option JSVal :=
  let x := a.toNum
  let y := b.toNum
  if op = "+" then some (.num (jsAdd x y))
  else if op = "-" then some (.num (jsSub x y))
  else if op = "*" then some (.num (jsMul x y))
  else if op = "/" then some (.num (jsDiv x y))
  else if op = "%" then some (.num (jsMod x y))
  else if op = "==" then some (.boolean (jsEqNum x y))
  else if op = "!=" then some (.boolean (!jsEqNum x y))
  else if op = "<" then some (.boolean (jsLt x y))
  else if op = "<=" then some (.boolean (jsLe x y))
  else if op = ">" then some (.boolean (jsLt y x))
  else if op = ">=" then some (.boolean (jsLe y x))
  else none

/-! ## Expressions and SSA instructions -/

/-- Expression nodes (`parseExpression` output and SSA right-hand
sides): `Literal`, `Variable`, `ArrayAccess`, `BinaryOperation`,
`UnaryOperation`. -/
inductive Expr where
  | literal (value : JSVal)
  | var (name : String)
  | arrayAccess (array : String) (index : Expr)
  | binaryOp (operator : String) (left right : Expr)
  | unaryOp (operator : String) (operand : Expr)
deriving DecidableEq, Repr

/-- Shorthand for an integer literal as produced by the parser. -/
def intLit (n : ℤ) : Expr := .literal (.num (.rat (JQ.ofInt n)))

/-- SSA instructions: `Assignment`, `Assert`, `Phi`.  A phi's operands
are plain strings (SSA names) in the source, and a loop-entry phi has no
`condition` field. -/
inductive SSAInstr where
  | assign (left : String) (right : Expr)
  | sassert (condition : Expr)
  | phi (result : String) (operands : List String) (condition : Option Expr)
deriving DecidableEq, Repr

/-! ## The SSA optimizer (`optimizeSSA`) -/

/-- `countUses` inside `optimizeSSA`: bumps counts for `Variable` and
for `ArrayAccess.array` (recursing into the index), recurses into the
two sides of a `BinaryOperation`, and ignores everything else (in
particular `UnaryOperation` operands are not counted). -/
def countUsesExpr (counts : List (String × Nat)) : Expr → List (String × Nat)
  | .var n => objSet counts n ((objGet counts n).getD 0 + 1)
  | .binaryOp _ l r => countUsesExpr (countUsesExpr counts l) r
  | .arrayAccess a i =>
      countUsesExpr (objSet counts a ((objGet counts a).getD 0 + 1)) i
  | _ => counts

/-- First pass of `optimizeSSA`: record `name → value` for assignments
whose right-hand side is a literal, and count uses.  For `Assert` nodes
the source calls `countUses(node.right)`, but an assert stores its
condition in `condition` and has no `right` field, so assert conditions
contribute nothing to the use counts.  Phi nodes bump each operand
name. -/
def optFirstPass (ssaNodes : List SSAInstr) :
    List (String × JSVal) × List (String × Nat) :=
  ssaNodes.foldl
    (fun acc node =>
      let constants := acc.1
      let useCounts := acc.2
      let constants :=
        match node with
        | .assign l (.literal v) => objSet constants l v
        | _ => constants
      let useCounts :=
        match node with
        | .assign _ r => countUsesExpr useCounts r
        | .sassert _ => useCounts
        | .phi _ ops _ =>
            ops.foldl (fun c o => objSet c o ((objGet c o).getD 0 + 1)) useCounts
      (constants, useCounts))
    ([], [])

/-- `propagateConstants` inside `optimizeSSA`: replace tracked constant
variables by literals and fold a `BinaryOperation` when both folded
operands are literals; an `eval` exception leaves the node unevaluated
(with folded children).  `ArrayAccess` and `UnaryOperation` nodes are
returned unchanged (their subterms are not visited). -/
def propagateConstants (constants : List (String × JSVal)) : Expr → Expr
  | .var n =>
      match objGet constants n with
      | some v => .literal v
      | none => .var n
  | .binaryOp op l r =>
      let l' := propagateConstants constants l
      let r' := propagateConstants constants r
      match l', r' with
      | .literal a, .literal b =>
          match jsEvalOpt op a b with
          | some v => .literal v
          | none => .binaryOp op l' r'
      | _, _ => .binaryOp op l' r'
  | e => e

/-- `optimizeSSA`: single forward pass.  An `Assignment` is skipped only
when `useCounts[left] === 0`; since `countUses` always stores counts of
at least 1 and an unused name is simply absent (`undefined`), this test
compares against `some 0`.  Otherwise the node is kept with `right`,
`condition` and `operands` rewritten (operands are plain strings, which
`propagateConstants` returns unchanged). -/
def optimizeSSA (ssaNodes : List SSAInstr) : List SSAInstr :=
  let passes := optFirstPass ssaNodes
  let constants := passes.1
  let useCounts := passes.2
  ssaNodes.filterMap fun node =>
    match node with
    | .assign l r =>
        if objGet useCounts l = some 0 then none
        else some (.assign l (propagateConstants constants r))
    | .sassert c => some (.sassert (propagateConstants constants c))
    | .phi res ops c =>
        some (.phi res ops (c.map (propagateConstants constants)))

/-! ## The expression parser (`parseExpression`)

The source scans the fixed operator list and calls
`expr.split(op)`, destructuring only the first two parts; it first tries
the array-access regex, whose pattern is `(.*)[(.*)]` — inside a
character class `(.*)` denotes the four literal characters, so the
pattern matches exactly when the input contains one of them, and it has
a single capture group, making `match[2]` undefined (so a "matching"
input crashes on `match[2].trim()`). -/

def isDigitCh (c : Char) : Bool := '0' ≤ c && c ≤ '9'

def digitsToNat (cs : List Char) : ℕ :=
  cs.foldl (fun acc c => 10 * acc + (c.toNat - 48)) 0

/-- JS `!isNaN(expr)` restricted to the decimal-integer fragment this
program feeds it (optionally signed digit strings; the empty string
converts to 0 and is numeric). -/
def jsIsNumeric (s : String) : Bool :=
  match (jsTrim s).data with
  | [] => true
  | '-' :: rest => !rest.isEmpty && rest.all isDigitCh
  | '+' :: rest => !rest.isEmpty && rest.all isDigitCh
  | l => l.all isDigitCh

/-- JS `Number.parseInt`: optional sign, then the longest leading digit
run; no digits gives `NaN`. -/
def parseIntJS (s : String) : JSNum :=
  let t := (jsTrim s).data
  let signed : Bool × List Char :=
    match t with
    | '-' :: rest => (true, rest)
    | '+' :: rest => (false, rest)
    | _ => (false, t)
  let digits := signed.2.takeWhile isDigitCh
  if digits.isEmpty then .nan
  else
    let n : ℤ := (digitsToNat digits : ℤ)
    .rat (JQ.ofInt (if signed.1 then -n else n))

/-- The fixed operator priority list of `parseExpression`. -/
def operatorsList : List String :=
  ["==", "!=", "<=", ">=", "<", ">", "+", "-", "*", "/", "%"]

/-- The character class of the mangled array-access regex
`(.*)[(.*)]`. -/
def regexClassChar (c : Char) : Bool :=
  c = '(' || c = '.' || c = '*' || c = ')'

def parseExpressionFuel : ℕ → String → Except String Expr
  | 0, _ => .error "out of fuel"
  | fuel + 1, expr =>
      if jsIncludes expr "[" && jsIncludes expr "]"
          && expr.data.any regexClassChar then
        .error "TypeError: Cannot read properties of undefined (reading trim)"
      else
        match operatorsList.find? (fun op => jsIncludes expr op) with
        | some op =>
            let parts := jsSplit expr op
            let left := parts.getD 0 ""
            let right := parts.getD 1 ""
            match parseExpressionFuel fuel (jsTrim left) with
            | .error e => .error e
            | .ok l =>
                match parseExpressionFuel fuel (jsTrim right) with
                | .error e => .error e
                | .ok r => .ok (.binaryOp op l r)
        | none =>
            if jsIsNumeric expr then .ok (.literal (.num (parseIntJS expr)))
            else .ok (.var expr)

/-- `parseExpression`.  The fuel is sufficient because each recursive
call receives a strictly shorter string. -/
def parseExpression (expr : String) : Except String Expr :=
  parseExpressionFuel (expr.data.length + 1) expr

/-! ## The statement parser (`parseProgram`) -/

/-- AST statement nodes produced by `parseProgram`. -/
inductive Stmt where
  | assignment (left : String) (right : Expr)
  | ifStatement (condition : Expr) (ifBody elseBody : List Stmt)
  | whileLoop (condition : Expr) (body : List Stmt)
  | forLoop (init : Stmt) (condition : Expr) (update : Stmt)
      (body : List Stmt)
  | assertStmt (condition : Expr)
deriving Repr

/-- Match of `/if\s*\((.*)\)\s*\{/` against a line: the leftmost `if`
followed (after whitespace) by `(`, with the greedy group ending at the
last `)` that is followed by optional whitespace and `{`. -/
def lastCloseParen (cs : List Char) : Option ℕ :=
  (List.range cs.length).reverse.find? fun j =>
    match cs.drop j with
    | ')' :: rest => listStartsWith (rest.dropWhile isWS) ['\x7b']
    | _ => false

def ifHeaderMatchAux : ℕ → List Char → Option String
  | 0, _ => none
  | _ + 1, [] => none
  | fuel + 1, c :: cs =>
      if listStartsWith (c :: cs) ['i', 'f'] then
        match ((c :: cs).drop 2).dropWhile isWS with
        | '(' :: rest =>
            match lastCloseParen rest with
            | some j => some (String.mk (rest.take j))
            | none => ifHeaderMatchAux fuel cs
        | _ => ifHeaderMatchAux fuel cs
      else ifHeaderMatchAux fuel cs

def ifHeaderMatch (line : String) : Option String :=
  ifHeaderMatchAux (line.data.length + 1) line.data

/-- Match of the source's while-header regex
`/while\s*$$(.*)$$\s*\{/`.  In a JS regex `$` is the end-of-input
anchor, not an escaped parenthesis, so after `while\s*$$` the pattern
still demands a literal `{` beyond the end of the line; no line can
match, and every `while` header throws. -/
def whileHeaderMatch (_line : String) : Option String := none

/-- Match of the source's for-header regex
`/for\s*$$(.*);(.*);(.*)$$\s*\{/`; as with the while regex, the `$$`
anchors make a match impossible. -/
def forHeaderMatch (_line : String) : Option String := none

/-- Match of `/assert\((.*)\);/`: leftmost `assert(`, greedy group up to
the last `);`. -/
def lastCloseSemi (cs : List Char) : Option ℕ :=
  (List.range cs.length).reverse.find? fun j =>
    match cs.drop j with
    | ')' :: ';' :: _ => true
    | _ => false

def assertHeaderMatchAux : ℕ → List Char → Option String
  | 0, _ => none
  | _ + 1, [] => none
  | fuel + 1, c :: cs =>
      if listStartsWith (c :: cs) "assert(".data then
        let rest := (c :: cs).drop 7
        match lastCloseSemi rest with
        | some j => some (String.mk (rest.take j))
        | none => assertHeaderMatchAux fuel cs
      else assertHeaderMatchAux fuel cs

def assertHeaderMatch (line : String) : Option String :=
  assertHeaderMatchAux (line.data.length + 1) line.data

/-- The brace-counting body extraction of `parseProgram`: starting at
depth 1, scan lines, adjusting depth for lines containing braces, and
collect non-empty lines seen at positive depth.  Note that depth is
adjusted at most once per line regardless of how many braces the line
holds, and reaching the end of input with unbalanced braces is not an
error. -/
def extractBlockAux : ℕ → List String → ℕ → ℕ → List String →
    List String × ℕ
  | 0, _, j, _, acc => (acc, j)
  | fuel + 1, lines, j, depth, acc =>
      if j < lines.length && depth > 0 then
        let currentLine := jsTrim (lines.getD j "")
        let d1 := if jsIncludes currentLine "\x7b" then depth + 1 else depth
        let d2 := if jsIncludes currentLine "\x7d" then d1 - 1 else d1
        let acc' :=
          if d2 > 0 && currentLine ≠ "" then acc ++ [currentLine] else acc
        extractBlockAux fuel lines (j + 1) d2 acc'
      else (acc, j)

def extractBlock (lines : List String) (start : ℕ) : List String × ℕ :=
  extractBlockAux (lines.length + 1) lines start 1 []

mutual

/-- `parseProgram`: a line-oriented scan.  Dispatch order per trimmed
line: blank or `//` comment; assignment when the line contains `:=`
anywhere (this is checked before the block-construct headers); `if`,
`while`, `for`, `assert` headers; any other line is silently skipped. -/
def parseProgramFuel : ℕ → String → Except String (List Stmt)
  | 0, _ => .error "out of fuel"
  | fuel + 1, programText =>
      parseLinesFuel fuel (jsSplit programText "\n") 0 []

def parseLinesFuel : ℕ → List String → ℕ → List Stmt →
    Except String (List Stmt)
  | 0, _, _, _ => .error "out of fuel"
  | fuel + 1, lines, i, acc =>
      if i < lines.length then
        let line := jsTrim (lines.getD i "")
        if line = "" || jsStartsWith line "//" then
          parseLinesFuel fuel lines (i + 1) acc
        else if jsIncludes line ":=" then
          let parts := jsSplit line ":="
          let left := parts.getD 0 ""
          let right := parts.getD 1 ""
          match parseExpression (jsTrim (jsStripTrailingSemi right)) with
          | .error e => .error e
          | .ok r =>
              parseLinesFuel fuel lines (i + 1)
                (acc ++ [.assignment (jsTrim left) r])
        else if jsStartsWith line "if" then
          match ifHeaderMatch line with
          | none => .error ("Invalid if statement: " ++ line)
          | some condStr =>
              match parseExpression (jsTrim condStr) with
              | .error e => .error e
              | .ok condition =>
                  let blk := extractBlock lines (i + 1)
                  let ifBody := blk.1
                  let j := blk.2
                  if j < lines.length
                      && jsStartsWith (jsTrim (lines.getD j "")) "else" then
                    let blk2 := extractBlockAux (lines.length + 1) lines
                      (j + 2) 1 []
                    match parseProgramFuel fuel (joinNL ifBody) with
                    | .error e => .error e
                    | .ok ib =>
                        match parseProgramFuel fuel (joinNL blk2.1) with
                        | .error e => .error e
                        | .ok eb =>
                            parseLinesFuel fuel lines blk2.2
                              (acc ++ [.ifStatement condition ib eb])
                  else
                    match parseProgramFuel fuel (joinNL ifBody) with
                    | .error e => .error e
                    | .ok ib =>
                        parseLinesFuel fuel lines j
                          (acc ++ [.ifStatement condition ib []])
        else if jsStartsWith line "while" then
          match whileHeaderMatch line with
          | none => .error ("Invalid while statement: " ++ line)
          | some _ => .error "unreachable"
        else if jsStartsWith line "for" then
          match forHeaderMatch line with
          | none => .error ("Invalid for statement: " ++ line)
          | some _ => .error "unreachable"
        else if jsStartsWith line "assert" then
          match assertHeaderMatch line with
          | none => .error ("Invalid assert statement: " ++ line)
          | some condStr =>
              match parseExpression (jsTrim condStr) with
              | .error e => .error e
              | .ok c =>
                  parseLinesFuel fuel lines (i + 1)
                    (acc ++ [.assertStmt c])
        else
          parseLinesFuel fuel lines (i + 1) acc
      else .ok acc

end

/-- `parseProgram(programText)`; the fuel bound covers one unit per
scanned line plus one per level of block nesting. -/
def parseProgram (programText : String) : Except String (List Stmt) :=
  parseProgramFuel (2 * programText.data.length + 10) programText

/-! ## The SSA builder (`convertToSSA`)

The version map `variables` holds JS values: integers, the string
`"loop"` (written by the while-loop rule), and `NaN` (the result of
`"loop"++`, since `++` coerces the string through `ToNumber`). -/

inductive JSVer where
  | intv (n : ℤ)
  | vloop
  | vnan
deriving DecidableEq, Repr

/-- JS truthiness of a version value: `0` and `NaN` are falsy, `"loop"`
and non-zero integers are truthy. -/
def JSVer.falsy : JSVer → Bool
  | .intv n => n = 0
  | .vloop => false
  | .vnan => true

/-- String interpolation of a version value, as in
`` `${varName}_${variables[varName]}` ``. -/
def JSVer.toStr : JSVer → String
  | .intv n => toString n
  | .vloop => "loop"
  | .vnan => "NaN"

/-- JS `variables[varName]++` (on the stored value): integers
increment; `"loop"` coerces to `NaN`; `NaN` stays `NaN`. -/
def JSVer.incr : JSVer → JSVer
  | .intv n => .intv (n + 1)
  | .vloop => .vnan
  | .vnan => .vnan

/-- JS strict equality on optional version values, as in
`variables[varName] !== beforeLoopState[varName]`; note
`NaN === NaN` is false. -/
def jsVerStrictEq : Option JSVer → Option JSVer → Bool
  | none, none => true
  | some a, some b =>
      match a, b with
      | .vnan, _ => false
      | _, .vnan => false
      | .intv n, .intv m => n = m
      | .vloop, .vloop => true
      | _, _ => false
  | _, _ => false

/-- A pending loop-entry phi record in the builder's `phi` array; the
source deletes the `loopVar` flag when the record is flushed into the
`ssa` array (the record itself stays in the array and is skipped by
later loops). -/
structure PhiEntry where
  result : String
  operands : List String
  loopVar : Bool
deriving Repr

structure SSAState where
  ssa : List SSAInstr
  -- the source field is named `variables` (a reserved word in Lean)
  vars : List (String × JSVer)
  phi : List PhiEntry

/-- `createNewVersion`: when the stored version is missing **or falsy**
(which includes version 0 and `NaN`), it is (re)set to 0; only truthy
versions are incremented.  In particular a variable at version 0 never
advances. -/
def createNewVersion (st : SSAState) (varName : String) :
    String × SSAState :=
  match objGet st.vars varName with
  | none =>
      (varName ++ "_0",
       { st with vars := objSet st.vars varName (.intv 0) })
  | some v =>
      if v.falsy then
        (varName ++ "_0",
         { st with vars := objSet st.vars varName (.intv 0) })
      else
        let v' := v.incr
        (varName ++ "_" ++ v'.toStr,
         { st with vars := objSet st.vars varName v' })

/-- `getCurrentVersion`: initializes an absent (or `NaN`, which is falsy
and `!== 0`) entry to version 0, otherwise reads the current version. -/
def getCurrentVersion (st : SSAState) (varName : String) :
    String × SSAState :=
  match objGet st.vars varName with
  | none =>
      (varName ++ "_0",
       { st with vars := objSet st.vars varName (.intv 0) })
  | some v =>
      if v.falsy && v ≠ .intv 0 then
        (varName ++ "_0",
         { st with vars := objSet st.vars varName (.intv 0) })
      else (varName ++ "_" ++ v.toStr, st)

/-- `processExpression` of `convertToSSA`: rewrite variable reads (and
array bases) to their current versioned names, recursing left-to-right
so that the map mutations happen in source order. -/
def ssaProcessExpr (st : SSAState) : Expr → Expr × SSAState
  | .literal v => (.literal v, st)
  | .var n =>
      let p := getCurrentVersion st n
      (.var p.1, p.2)
  | .arrayAccess a i =>
      let p := getCurrentVersion st a
      let q := ssaProcessExpr p.2 i
      (.arrayAccess p.1 q.1, q.2)
  | .binaryOp op l r =>
      let p := ssaProcessExpr st l
      let q := ssaProcessExpr p.2 r
      (.binaryOp op p.1 q.1, q.2)
  | .unaryOp op e =>
      let p := ssaProcessExpr st e
      (.unaryOp op p.1, p.2)

/-- `new Set([...Object.keys(a), ...Object.keys(b)])`: keys of `a` in
order, then keys of `b` not already present. -/
def keysUnion (a b : List (String × JSVer)) : List String :=
  (a.map Prod.fst ++ b.map Prod.fst).foldl
    (fun acc k => if acc.contains k then acc else acc ++ [k]) []

mutual

/-- `processNode` of `convertToSSA`. -/
def processStmt : ℕ → SSAState → Stmt → Option SSAState
  | 0, _, _ => none
  | fuel + 1, st, stmt =>
      match stmt with
      | .assignment varName rhs =>
          let p := ssaProcessExpr st rhs
          let q := createNewVersion p.2 varName
          some { q.2 with ssa := q.2.ssa ++ [.assign q.1 p.1] }
      | .ifStatement cond ifBody elseBody =>
          let p := ssaProcessExpr st cond
          let condition := p.1
          let st1 := p.2
          let beforeIfState := st1.vars
          match processStmtList fuel st1 ifBody with
          | none => none
          | some st2 =>
              let afterIfState := st2.vars
              let st3 :=
                { st2 with vars := objAssign st2.vars beforeIfState }
              match processStmtList fuel st3 elseBody with
              | none => none
              | some st4 =>
                  let modifiedVars := keysUnion afterIfState st4.vars
                  some (modifiedVars.foldl
                    (fun stAcc varName =>
                      let ifVersion := (objGet afterIfState varName).map
                        (fun v => varName ++ "_" ++ v.toStr)
                      let elseVersion := (objGet stAcc.vars varName).map
                        (fun v => varName ++ "_" ++ v.toStr)
                      match ifVersion, elseVersion with
                      | some iv, some ev =>
                          if iv ≠ ev then
                            let q := createNewVersion stAcc varName
                            { q.2 with
                              ssa := q.2.ssa ++
                                [.phi q.1 [iv, ev] (some condition)] }
                          else stAcc
                      | _, _ => stAcc)
                    st4)
      | .whileLoop cond body =>
          let p := ssaProcessExpr st cond
          let condition := p.1
          let st1 := p.2
          let beforeLoopState := st1.vars
          -- loop-entry phi records, seeded with the current version;
          -- each variable is then rebound to the string "loop"
          let st2 := (beforeLoopState.map Prod.fst).foldl
            (fun stAcc varName =>
              let q := getCurrentVersion stAcc varName
              { q.2 with
                phi := q.2.phi ++
                  [⟨varName ++ "_loop", [q.1], true⟩],
                vars := objSet q.2.vars varName .vloop })
            st1
          match processStmtList fuel st2 body with
          | none => none
          | some st3 =>
              -- extend every still-flagged phi record (including records
              -- of enclosing loops) with the post-body version of the
              -- name before the first "_" of its result, unless already
              -- among its operands
              let upd := st3.phi.foldl
                (fun (acc : SSAState × List PhiEntry) entry =>
                  if entry.loopVar then
                    let varName := (jsSplit entry.result "_").getD 0 ""
                    let q := getCurrentVersion acc.1 varName
                    let entry' :=
                      if entry.operands.contains q.1 then entry
                      else { entry with operands := entry.operands ++ [q.1] }
                    (q.2, acc.2 ++ [entry'])
                  else (acc.1, acc.2 ++ [entry]))
                (st3, [])
              let st4 : SSAState := { upd.1 with phi := upd.2 }
              -- flush every still-flagged record into the ssa stream
              -- (without a condition field) and clear its flag
              let fl := st4.phi.foldl
                (fun (acc : List SSAInstr × List PhiEntry) entry =>
                  if entry.loopVar then
                    (acc.1 ++ [.phi entry.result entry.operands none],
                     acc.2 ++ [{ entry with loopVar := false }])
                  else (acc.1, acc.2 ++ [entry]))
                (st4.ssa, [])
              let st5 : SSAState := { st4 with ssa := fl.1, phi := fl.2 }
              -- exit phis, guarded by the negated loop condition, for
              -- every name whose value strictly changed across the loop
              let keys := st5.vars.map Prod.fst
              some (keys.foldl
                (fun stAcc varName =>
                  if !(jsVerStrictEq (objGet stAcc.vars varName)
                        (objGet beforeLoopState varName)) then
                    let q := createNewVersion stAcc varName
                    let op1 :=
                      match objGet beforeLoopState varName with
                      | some v => varName ++ "_" ++ v.toStr
                      | none => varName ++ "_0"
                    let r := getCurrentVersion q.2 varName
                    { r.2 with
                      ssa := r.2.ssa ++
                        [.phi q.1 [op1, r.1]
                          (some (.unaryOp "!" condition))] }
                  else stAcc)
                st5)
      | .forLoop finit cond fupdate body =>
          match processStmt fuel st finit with
          | none => none
          | some st1 =>
              processStmt fuel st1 (.whileLoop cond (body ++ [fupdate]))
      | .assertStmt cond =>
          let p := ssaProcessExpr st cond
          some { p.2 with ssa := p.2.ssa ++ [.sassert p.1] }

def processStmtList : ℕ → SSAState → List Stmt → Option SSAState
  | 0, _, _ => none
  | fuel + 1, st, stmts =>
      match stmts with
      | [] => some st
      | s :: rest =>
          match processStmt fuel st s with
          | none => none
          | some st' => processStmtList fuel st' rest

end

/-- `convertToSSA(ast)`: process the program body from an empty state
and return the emitted instruction stream together with the final
version map (the source's `{ ssa, variables }`).  The fuel far exceeds
the recursion depth of any program considered. -/
def convertToSSA (body : List Stmt) :
    Option (List SSAInstr × List (String × JSVer)) :=
  (processStmtList 100000 ⟨[], [], []⟩ body).map fun st =>
    (st.ssa, st.vars)

/-! ## The constraint encoder (`generateVerificationSMT`) -/

def decDigitsAux : ℕ → ℕ → ℕ → String
  | 0, _, _ => ""
  | fuel + 1, n, d =>
      if n = 0 then ""
      else
        let n10 := n * 10
        toString (n10 / d) ++ decDigitsAux fuel (n10 % d) d

/-- JS number-to-string, as used by the template literals of the
encoder (`${expr.value}`).  In the pipeline only integer literals reach
the encoder (the optimizer's folded output is not fed to it), where this
agrees with JS exactly; finite decimal expansions also agree, and a
non-terminating expansion is cut after 17 digits (never exercised). -/
def jsNumToString : JSNum → String
  | .rat q =>
      if q.den = 1 then toString q.num
      else
        let sign := if q.num < 0 then "-" else ""
        let a := q.num.natAbs
        sign ++ toString (a / q.den) ++ "." ++
          decDigitsAux 17 (a % q.den) q.den
  | .inf => "Infinity"
  | .neginf => "-Infinity"
  | .nan => "NaN"

def jsValToString : JSVal → String
  | .num n => jsNumToString n
  | .boolean true => "true"
  | .boolean false => "false"

structure GenState where
  smt : String
  declarations : List String
  assertions : List String
deriving Repr

/-- `processExpression` of `generateVerificationSMT`: returns the
rendered prefix-syntax text and records an integer declaration for each
`Variable` encountered.  The switch handles `BinaryOperation`,
`Variable`, `Literal` (and a `Phi` tag that expression trees never
carry); everything else — including `UnaryOperation` and
`ArrayAccess` — falls to the default branch and renders as `"0"`. -/
def processExpressionSMT (decls : List String) : Expr → String × List String
  | .binaryOp op l r =>
      let p := processExpressionSMT decls l
      let q := processExpressionSMT p.2 r
      ("(" ++ op ++ " " ++ p.1 ++ " " ++ q.1 ++ ")", q.2)
  | .var n =>
      if decls.contains n then (n, decls) else (n, decls ++ [n])
  | .literal v => (jsValToString v, decls)
  | .arrayAccess _ _ => ("0", decls)
  | .unaryOp _ _ => ("0", decls)

/-- A phi operand is a plain string (an SSA name), but the encoder hands
it to `processExpression`, which switches on its `.type` property; a
string has none, so the operand falls to the default branch and renders
as `"0"`. -/
def processOperand (_o : String) : String := "0"

/-- One step of the node loop of `generateVerificationSMT`.  An
`Assignment` appends its defining equality to the script immediately; an
`Assert` pushes its (un-negated) condition onto the `assertions` array,
appended after the declarations; a `Phi` appends
`result == (ite cond "0" "0")`, and crashes with a `TypeError` when it
has no condition (every loop-entry phi) or fewer than two operands. -/
def genStep (st : GenState) : SSAInstr → Except String GenState
  | .assign l r =>
      let d1 :=
        if st.declarations.contains l then st.declarations
        else st.declarations ++ [l]
      let p := processExpressionSMT d1 r
      .ok { st with
        smt := st.smt ++ "(assert (= " ++ l ++ " " ++ p.1 ++ "))\n",
        declarations := p.2 }
  | .sassert c =>
      let p := processExpressionSMT st.declarations c
      .ok { st with
        assertions := st.assertions ++ ["(assert " ++ p.1 ++ ")\n"],
        declarations := p.2 }
  | .phi res ops cond =>
      match cond with
      | none =>
          .error "TypeError: Cannot read properties of undefined (reading type)"
      | some c =>
          let p := processExpressionSMT st.declarations c
          match ops with
          | o0 :: o1 :: _ =>
              .ok { st with
                smt := st.smt ++ "(assert (= " ++ res ++ " (ite " ++ p.1
                  ++ " " ++ processOperand o0 ++ " " ++ processOperand o1
                  ++ ")))\n",
                declarations := p.2 }
          | _ =>
              .error
                "TypeError: Cannot read properties of undefined (reading type)"

def genFold : List SSAInstr → GenState → Except String GenState
  | [], st => .ok st
  | node :: rest, st =>
      match genStep st node with
      | .error e => .error e
      | .ok st' => genFold rest st'

/-- `generateVerificationSMT(ssa, unrollDepth)`: the header, then the
per-node equalities, then the collected `declare-const` lines, then the
assert conditions verbatim (no negation anywhere), then
`check-sat`/`get-model`.  The unroll depth parameter is accepted and
never consumed. -/
def generateVerificationSMT (ssa : List SSAInstr) (_unrollDepth : ℕ) :
    Except String String :=
  match genFold ssa ⟨"(set-logic QF_LIA)\n", [], []⟩ with
  | .error e => .error e
  | .ok st =>
      .ok (st.smt
        ++ String.join (st.declarations.map fun d =>
            "(declare-const " ++ d ++ " Int)\n")
        ++ String.join st.assertions
        ++ "(check-sat)\n" ++ "(get-model)\n")

/-! ## Equivalence mode (`generateEquivalenceSMT`) -/

/-- `renameInExpr` of `renameVariables`: appends the suffix to a `name`
field and recurses through `left`/`right`.  An `ArrayAccess` has fields
`array`/`index` and a `UnaryOperation` has `operand`, none of which the
function visits, so those nodes pass through unrenamed. -/
def renameInExpr (suffix : String) : Expr → Expr
  | .var n => .var (n ++ suffix)
  | .binaryOp op l r =>
      .binaryOp op (renameInExpr suffix l) (renameInExpr suffix r)
  | e => e

/-- `renameVariables(ssa, suffix)`: rename `left`, `right`, `condition`,
`result`.  A phi's operands are strings; the source maps them through
`renameInExpr`, which object-spreads each string into a keyless object —
not a renamed name — and every consumer modelled here (the encoder's
default branch) renders such an operand exactly as it renders the plain
string, namely `"0"`, so the embedding keeps the operand strings. -/
def renameVariables (ssa : List SSAInstr) (suffix : String) :
    List SSAInstr :=
  ssa.map fun node =>
    match node with
    | .assign l r => .assign (l ++ suffix) (renameInExpr suffix r)
    | .sassert c => .sassert (renameInExpr suffix c)
    | .phi res ops c =>
        .phi (res ++ suffix) ops (c.map (renameInExpr suffix))

/-- `extractDeclarations`: its regex is written
`/$$declare-const (\w+) (\w+)$$/`, and `$` anchors at the end of input,
so the pattern can match no line; the function always returns the empty
list. -/
def extractDeclarations (_smt : String) : List (String × String) := []

/-- `extractAssertions`: keep the lines starting with `(assert`, join
with newlines, append a final newline. -/
def extractAssertions (smt : String) : String :=
  joinNL ((jsSplit smt "\n").filter fun l =>
    jsStartsWith l "(assert" && !(jsIncludes l "check-sat")) ++ "\n"

/-- `findOutputVariables(ssa)`: `lastAssignments[node.left] = node.left`
for every `Assignment`, then `Object.values` — i.e. the distinct SSA
target names keyed by the full versioned name (not by original name), in
first-assignment order. -/
def findOutputVariables (ssa : List SSAInstr) : List String :=
  (ssa.foldl
    (fun m node =>
      match node with
      | .assign l _ => objSet m l l
      | _ => m)
    []).map Prod.snd

/-- `generateEquivalenceSMT(ssa1, ssa2, unrollDepth)`: rename the second
stream with suffix `_p2`, encode both via `generateVerificationSMT`,
re-extract declarations (always empty, see `extractDeclarations`) and
assertion lines, then append one positive equality
`(assert (= out1_i out2_i))` per output pair — paired by position — when
the output counts agree, and the line
`(assert false) ; Output count mismatch` otherwise; in both cases the
script ends with `check-sat`/`get-model` and is handed to the solver. -/
def generateEquivalenceSMT (ssa1 ssa2 : List SSAInstr)
    (unrollDepth : ℕ) : Except String String :=
  let renamedSSA2 := renameVariables ssa2 "_p2"
  match generateVerificationSMT ssa1 unrollDepth with
  | .error e => .error e
  | .ok smt1 =>
      match generateVerificationSMT renamedSSA2 unrollDepth with
      | .error e => .error e
      | .ok smt2 =>
          let combinedDeclarations :=
            extractDeclarations smt1 ++ extractDeclarations smt2
          let declPart := String.join (combinedDeclarations.map fun d =>
            "(declare-const " ++ d.1 ++ " " ++ d.2 ++ ")\n")
          let outputs1 := findOutputVariables ssa1
          let outputs2 := findOutputVariables renamedSSA2
          let eqPart :=
            if outputs1.length = outputs2.length then
              String.join ((outputs1.zip outputs2).map fun p =>
                "(assert (= " ++ p.1 ++ " " ++ p.2 ++ "))\n")
            else "(assert false) ; Output count mismatch\n"
          .ok ("(set-logic QF_LIA)\n" ++ declPart
            ++ extractAssertions smt1 ++ extractAssertions smt2
            ++ eqPart ++ "(check-sat)\n" ++ "(get-model)\n")

/-! ## The verdict mappings (`checkVerification`, `checkEquivalence`)

Both functions hand the script to the solver (a random mock in the
source) and map its verdict; we model the verdict as an input and embed
the mapping. -/

/-- `checkVerification`: solver result `sat` maps to `verified: false`
(the model is reported as a counterexample); any other result maps to
`verified: true`. -/
def checkVerification (solverResult : String) : Bool :=
  !(solverResult = "sat")

/-- `checkEquivalence`: solver result `unsat` maps to
`equivalent: true`; any other result maps to `equivalent: false` (with a
counterexample). -/
def checkEquivalence (solverResult : String) : Bool :=
  solverResult = "unsat"

/-! ## Helper lemmas about strings and the encoder state -/

theorem strAppend_data (a b : String) : a ++ b = ⟨a.data ++ b.data⟩ := rfl

theorem strJoin_cons (x : String) (xs : List String) :
    String.join (x :: xs) = x ++ String.join xs := by
  simp [String.join_eq, strAppend_data]

theorem strJoin_append (l1 l2 : List String) :
    String.join (l1 ++ l2) = String.join l1 ++ String.join l2 := by
  induction l1 with
  | nil => simp [String.join]
  | cons x xs ih => simp [strJoin_cons, ih, String.append_assoc]

/-- The text that `processExpression` of the encoder renders for an
expression (independent of the accumulated declarations). -/
def smtExprText : Expr → String
  | .binaryOp op l r =>
      "(" ++ op ++ " " ++ smtExprText l ++ " " ++ smtExprText r ++ ")"
  | .var n => n
  | .literal v => jsValToString v
  | .arrayAccess _ _ => "0"
  | .unaryOp _ _ => "0"

theorem processExpressionSMT_fst (e : Expr) :
    ∀ d, (processExpressionSMT d e).1 = smtExprText e := by
  induction e with
  | literal v => intro d; rfl
  | var n => intro d; simp only [processExpressionSMT, smtExprText]; split <;> rfl
  | arrayAccess a i _ => intro d; rfl
  | binaryOp op l r ihl ihr =>
      intro d
      simp only [processExpressionSMT, smtExprText, ihl, ihr]
  | unaryOp op e _ => intro d; rfl

/-- The line that one SSA node contributes directly to the script body:
a definitional equality for an assignment, an if-then-else equality
(with both branches rendered `"0"`) for a two-plus-operand guarded phi,
nothing for an assert (collected separately). -/
def smtLineOf : SSAInstr → String
  | .assign l r => "(assert (= " ++ l ++ " " ++ smtExprText r ++ "))\n"
  | .sassert _ => ""
  | .phi res ops c =>
      match c, ops with
      | some cc, _ :: _ :: _ =>
          "(assert (= " ++ res ++ " (ite " ++ smtExprText cc
            ++ " 0 0)))\n"
      | _, _ => ""

/-- The positive, un-negated assertion line collected for an assert. -/
def assertLineOf : SSAInstr → Option String
  | .sassert c => some ("(assert " ++ smtExprText c ++ ")\n")
  | _ => none

theorem genFold_ok (ssa : List SSAInstr) :
    ∀ st0 st, genFold ssa st0 = .ok st →
      st.smt = st0.smt ++ String.join (ssa.map smtLineOf) ∧
      st.assertions = st0.assertions ++ ssa.filterMap assertLineOf := by
  induction ssa with
  | nil =>
      intro st0 st h
      simp only [genFold, Except.ok.injEq] at h
      subst h
      simp [String.join]
  | cons node rest ih =>
      intro st0 st h
      simp only [genFold] at h
      cases hstep : genStep st0 node with
      | error e => rw [hstep] at h; cases h
      | ok st1 =>
          rw [hstep] at h
          obtain ⟨h1, h2⟩ := ih st1 st h
          cases node with
          | assign l r =>
              simp only [genStep, Except.ok.injEq] at hstep
              subst hstep
              constructor
              · rw [h1]
                simp [strJoin_cons, smtLineOf, String.append_assoc,
                  processExpressionSMT_fst]
              · rw [h2]
                simp [assertLineOf]
          | sassert c =>
              simp only [genStep, Except.ok.injEq] at hstep
              subst hstep
              constructor
              · rw [h1]
                simp [strJoin_cons, smtLineOf]
              · rw [h2]
                simp [assertLineOf, processExpressionSMT_fst,
                  List.append_assoc]
          | phi res ops cond =>
              cases cond with
              | none => simp [genStep] at hstep
              | some cc =>
                  cases ops with
                  | nil => simp [genStep] at hstep
                  | cons o0 tl0 =>
                      cases tl0 with
                      | nil => simp [genStep] at hstep
                      | cons o1 tl1 =>
                          simp only [genStep, Except.ok.injEq] at hstep
                          subst hstep
                          constructor
                          · rw [h1]
                            simp [strJoin_cons, smtLineOf, processOperand,
                              String.append_assoc, processExpressionSMT_fst]
                          · rw [h2]
                            simp [assertLineOf]

/-- The SSA target of an instruction, when it is an assignment. -/
def assignTarget : SSAInstr → Option String
  | .assign l _ => some l
  | _ => none

/-- Declarative description of `findOutputVariables`: the distinct SSA
assignment-target names, in order of first assignment. -/
def outputsSpec (ssa : List SSAInstr) : List String :=
  (ssa.filterMap assignTarget).foldl
    (fun acc t => if t ∈ acc then acc else acc ++ [t]) []

theorem objSet_selfkey (m : List (String × String)) (t : String)
    (hm : ∀ p ∈ m, p.1 = p.2) :
    ((objSet m t t).map Prod.snd =
      if t ∈ m.map Prod.snd then m.map Prod.snd
      else m.map Prod.snd ++ [t]) ∧
    (∀ p ∈ objSet m t t, p.1 = p.2) := by
  induction m with
  | nil => simp [objSet]
  | cons kv rest ih =>
      obtain ⟨k, v⟩ := kv
      have hk : k = v := hm (k, v) (by simp)
      have hrest : ∀ p ∈ rest, p.1 = p.2 := fun p hp => hm p (by simp [hp])
      obtain ⟨ih1, ih2⟩ := ih hrest
      by_cases hkt : k = t
      · subst hkt
        subst hk
        have hset : objSet ((k, k) :: rest) k k = (k, k) :: rest := by
          simp [objSet]
        constructor
        · rw [hset]; simp
        · intro p hp
          rw [hset] at hp
          exact hm p hp
      · constructor
        · simp only [objSet, if_neg hkt, List.map_cons, ih1]
          subst hk
          have : ¬ (t ∈ [k] ∨ t ∈ rest.map Prod.snd) ↔
              ¬ t ∈ [k] ∧ ¬ t ∈ rest.map Prod.snd := not_or
          by_cases hmem : t ∈ rest.map Prod.snd
          · simp [hmem, Ne.symm hkt]
          · simp [hmem, Ne.symm hkt]
        · intro p hp
          simp only [objSet, if_neg hkt, List.mem_cons] at hp
          rcases hp with hp | hp
          · subst hp; exact hk
          · exact ih2 p hp

theorem foldl_objSet_spec (ts : List String) :
    ∀ (m : List (String × String)), (∀ p ∈ m, p.1 = p.2) →
      ((ts.foldl (fun m t => objSet m t t) m).map Prod.snd) =
        ts.foldl (fun acc t => if t ∈ acc then acc else acc ++ [t])
          (m.map Prod.snd) := by
  induction ts with
  | nil => intro m _; rfl
  | cons t rest ih =>
      intro m hm
      obtain ⟨h1, h2⟩ := objSet_selfkey m t hm
      simp only [List.foldl_cons]
      rw [ih (objSet m t t) h2, h1]

theorem findOutput_fold_filterMap (ssa : List SSAInstr) :
    ∀ (m : List (String × String)),
      (ssa.foldl
        (fun m node =>
          match node with
          | .assign l _ => objSet m l l
          | _ => m) m) =
      ((ssa.filterMap assignTarget).foldl (fun m t => objSet m t t) m) := by
  induction ssa with
  | nil => intro m; rfl
  | cons node rest ih =>
      intro m
      cases node <;> simp [assignTarget, ih]

/-- `findOutputVariables` computes exactly the distinct SSA targets in
first-assignment order (keyed by full SSA name, not by original
name). -/
theorem findOutputVariables_eq (ssa : List SSAInstr) :
    findOutputVariables ssa = outputsSpec ssa := by
  unfold findOutputVariables outputsSpec
  rw [findOutput_fold_filterMap ssa []]
  exact foldl_objSet_spec (ssa.filterMap assignTarget) [] (by simp)

theorem propagateConstants_literal (cs : List (String × JSVal))
    (v : JSVal) : propagateConstants cs (.literal v) = .literal v := rfl

/-! ## The claims -/

/-- C1 (counterexample): for the single-assert stream
`x_0 := 3; assert(x_0 > 0)` the verification script asserts the assert
condition positively — it contains `(assert (> x_0 0))` and no
occurrence of `(not` at all — contradicting the claim that the script
contains the negation of the conjunction of the assert conditions. -/
theorem c1_no_negation_counterexample :
    generateVerificationSMT
        [.assign "x_0" (intLit 3),
         .sassert (.binaryOp ">" (.var "x_0") (intLit 0))] 3
      = .ok "(set-logic QF_LIA)\n(assert (= x_0 3))\n(declare-const x_0 Int)\n(assert (> x_0 0))\n(check-sat)\n(get-model)\n"
    ∧ jsIncludes
        "(set-logic QF_LIA)\n(assert (= x_0 3))\n(declare-const x_0 Int)\n(assert (> x_0 0))\n(check-sat)\n(get-model)\n"
        "(not" = false := by
  exact ⟨rfl, rfl⟩

/-- C1 (amended): the verification script is the header, the
definitional equalities (one per `SAssign` and per encodable `SPhi`, in
stream order), the declarations, then every assert condition asserted
**positively** (un-negated), then `check-sat`/`get-model`; the verdict
mapping sends solver-`sat` to "verification failed" (model reported as
counterexample) and anything else to "all assertions verified". -/
theorem c1_positive_encoding (ssa : List SSAInstr) (u : ℕ) (s : String)
    (h : generateVerificationSMT ssa u = .ok s) :
    (∃ decls : List String,
      s = "(set-logic QF_LIA)\n" ++ String.join (ssa.map smtLineOf)
        ++ String.join (decls.map fun d =>
            "(declare-const " ++ d ++ " Int)\n")
        ++ String.join (ssa.filterMap assertLineOf)
        ++ "(check-sat)\n" ++ "(get-model)\n")
    ∧ checkVerification "sat" = false
    ∧ checkVerification "unsat" = true := by
  refine ⟨?_, rfl, rfl⟩
  unfold generateVerificationSMT at h
  cases hf : genFold ssa ⟨"(set-logic QF_LIA)\n", [], []⟩ with
  | error e => rw [hf] at h; cases h
  | ok st =>
      rw [hf] at h
      simp only [Except.ok.injEq] at h
      obtain ⟨h1, h2⟩ := genFold_ok ssa _ st hf
      refine ⟨st.declarations, ?_⟩
      rw [← h, h1, h2]
      simp [String.append_assoc]

/-- C1 (witness): the characterization instantiated at the
counterexample stream. -/
theorem c1_positive_encoding_witness :
    (∃ decls : List String,
      "(set-logic QF_LIA)\n(assert (= x_0 3))\n(declare-const x_0 Int)\n(assert (> x_0 0))\n(check-sat)\n(get-model)\n"
        = "(set-logic QF_LIA)\n"
          ++ String.join ([SSAInstr.assign "x_0" (intLit 3),
              SSAInstr.sassert
                (.binaryOp ">" (.var "x_0") (intLit 0))].map smtLineOf)
          ++ String.join (decls.map fun d =>
              "(declare-const " ++ d ++ " Int)\n")
          ++ String.join ([SSAInstr.assign "x_0" (intLit 3),
              SSAInstr.sassert
                (.binaryOp ">" (.var "x_0") (intLit 0))].filterMap
                  assertLineOf)
          ++ "(check-sat)\n" ++ "(get-model)\n")
    ∧ checkVerification "sat" = false
    ∧ checkVerification "unsat" = true :=
  c1_positive_encoding
    [.assign "x_0" (intLit 3),
     .sassert (.binaryOp ">" (.var "x_0") (intLit 0))] 3
    "(set-logic QF_LIA)\n(assert (= x_0 3))\n(declare-const x_0 Int)\n(assert (> x_0 0))\n(check-sat)\n(get-model)\n"
    rfl

/-- C2: for the phi `x_2 = phi(x_1, x_0) [y_0 < 5]` the encoder emits
`(assert (= x_2 (ite (< y_0 5) 0 0)))`: the guard is encoded, but both
branches are the literal `0`, not the operand names `x_1`/`x_0` — the
operands are plain strings, which `processExpression`'s default branch
renders as `"0"` — so the emitted script never mentions `x_1`. -/
theorem c2_phi_branches_are_zero :
    generateVerificationSMT
        [.phi "x_2" ["x_1", "x_0"]
          (some (.binaryOp "<" (.var "y_0") (intLit 5)))] 3
      = .ok "(set-logic QF_LIA)\n(assert (= x_2 (ite (< y_0 5) 0 0)))\n(declare-const y_0 Int)\n(check-sat)\n(get-model)\n"
    ∧ jsIncludes
        "(set-logic QF_LIA)\n(assert (= x_2 (ite (< y_0 5) 0 0)))\n(declare-const y_0 Int)\n(check-sat)\n(get-model)\n"
        "x_1" = false
    ∧ processOperand "x_1" = "0" := by
  exact ⟨rfl, rfl, rfl⟩

/-- C3 (counterexample): for the one-assignment programs `x := 1` and
`x := 2` the equivalence script asserts the output equality
**positively** — it contains `(assert (= x_0 x_0_p2))` and no `(not` —
and `findOutputVariables` keys outputs by full SSA name, so the stream
`x_0 := 0; x_NaN := 1` (reachable from a while-loop program) yields two
outputs for the single original name `x`. -/
theorem c3_counterexample :
    generateEquivalenceSMT [.assign "x_0" (intLit 1)]
        [.assign "x_0" (intLit 2)] 3
      = .ok "(set-logic QF_LIA)\n(assert (= x_0 1))\n(assert (= x_0_p2 2))\n(assert (= x_0 x_0_p2))\n(check-sat)\n(get-model)\n"
    ∧ jsIncludes
        "(set-logic QF_LIA)\n(assert (= x_0 1))\n(assert (= x_0_p2 2))\n(assert (= x_0 x_0_p2))\n(check-sat)\n(get-model)\n"
        "(not" = false
    ∧ findOutputVariables
        [.assign "x_0" (intLit 0), .assign "x_NaN" (intLit 1)]
      = ["x_0", "x_NaN"] := by
  exact ⟨rfl, rfl, rfl⟩

/-- C3 (amended): each program's output variables are the distinct SSA
assignment-target names in first-assignment order (keyed by the full
versioned name, not the original name); when the output counts agree the
script asserts the pairwise equalities positively, pairing outputs **by
position**, and the two programs are reported equivalent exactly when
the solver answers `unsat` on that script. -/
theorem c3_outputs_and_positive_equalities :
    (∀ ssa : List SSAInstr, findOutputVariables ssa = outputsSpec ssa)
    ∧ (∀ (ssa1 ssa2 : List SSAInstr) (u : ℕ) (smt1 smt2 : String),
        generateVerificationSMT ssa1 u = .ok smt1 →
        generateVerificationSMT (renameVariables ssa2 "_p2") u = .ok smt2 →
        (findOutputVariables ssa1).length =
          (findOutputVariables (renameVariables ssa2 "_p2")).length →
        generateEquivalenceSMT ssa1 ssa2 u = .ok
          ("(set-logic QF_LIA)\n" ++ extractAssertions smt1
            ++ extractAssertions smt2
            ++ String.join
              (((findOutputVariables ssa1).zip
                  (findOutputVariables (renameVariables ssa2 "_p2"))).map
                fun p => "(assert (= " ++ p.1 ++ " " ++ p.2 ++ "))\n")
            ++ "(check-sat)\n" ++ "(get-model)\n"))
    ∧ checkEquivalence "unsat" = true
    ∧ checkEquivalence "sat" = false := by
  refine ⟨findOutputVariables_eq, ?_, rfl, rfl⟩
  intro ssa1 ssa2 u smt1 smt2 h1 h2 hlen
  unfold generateEquivalenceSMT
  rw [h1]
  simp only [h2]
  simp [extractDeclarations, hlen, String.join, String.append_assoc]

/-- C3 (witness): the characterization instantiated at the
counterexample programs. -/
theorem c3_outputs_witness :
    generateEquivalenceSMT [.assign "x_0" (intLit 1)]
        [.assign "x_0" (intLit 2)] 3
      = .ok
        ("(set-logic QF_LIA)\n"
          ++ extractAssertions
            "(set-logic QF_LIA)\n(assert (= x_0 1))\n(declare-const x_0 Int)\n(check-sat)\n(get-model)\n"
          ++ extractAssertions
            "(set-logic QF_LIA)\n(assert (= x_0_p2 2))\n(declare-const x_0_p2 Int)\n(check-sat)\n(get-model)\n"
          ++ String.join
            (((findOutputVariables [SSAInstr.assign "x_0" (intLit 1)]).zip
                (findOutputVariables
                  (renameVariables [SSAInstr.assign "x_0" (intLit 2)]
                    "_p2"))).map
              fun p => "(assert (= " ++ p.1 ++ " " ++ p.2 ++ "))\n")
          ++ "(check-sat)\n" ++ "(get-model)\n") :=
  (c3_outputs_and_positive_equalities.2.1)
    [.assign "x_0" (intLit 1)] [.assign "x_0" (intLit 2)] 3
    "(set-logic QF_LIA)\n(assert (= x_0 1))\n(declare-const x_0 Int)\n(check-sat)\n(get-model)\n"
    "(set-logic QF_LIA)\n(assert (= x_0_p2 2))\n(declare-const x_0_p2 Int)\n(check-sat)\n(get-model)\n"
    rfl rfl rfl

/-- C4: SSA versions are **not** strictly increasing.  For
`x := 1; x := 2` both assignments target `x_0` (`createNewVersion`
treats the stored version 0 as unset, so the counter never advances past
0), and with a while loop (`x := 0; while (x < 5) do x := x + 1`) the
builder emits the target `x_NaN`, reads `x_loop` in an instruction that
precedes the phi producing it, and that phi has a single operand. -/
theorem c4_versions_not_increasing :
    convertToSSA [.assignment "x" (intLit 1), .assignment "x" (intLit 2)]
      = some ([.assign "x_0" (intLit 1), .assign "x_0" (intLit 2)],
              [("x", .intv 0)])
    ∧ convertToSSA [.assignment "x" (intLit 0),
        .whileLoop (.binaryOp "<" (.var "x") (intLit 5))
          [.assignment "x" (.binaryOp "+" (.var "x") (intLit 1))]]
      = some ([.assign "x_0" (intLit 0),
               .assign "x_NaN" (.binaryOp "+" (.var "x_loop") (intLit 1)),
               .phi "x_loop" ["x_0"] none],
              [("x", .intv 0)]) := by
  exact ⟨rfl, rfl⟩

/-- C5: a program that reassigns an existing `x` only in the then
branch emits **no** phi: parsing
`x := 1; if (y < 2) { x := 2; }` and converting to SSA yields the two
assignments `x_0 := 1; x_0 := 2` and nothing else — the post-then and
post-else versions are both `x_0` because version 0 never advances, so
the branch-difference test never fires. -/
theorem c5_no_phi_for_then_only_reassignment :
    parseProgram "x := 1;\nif (y < 2) \x7b\n  x := 2;\n\x7d"
      = .ok [.assignment "x" (intLit 1),
             .ifStatement (.binaryOp "<" (.var "y") (intLit 2))
               [.assignment "x" (intLit 2)] []]
    ∧ convertToSSA [.assignment "x" (intLit 1),
        .ifStatement (.binaryOp "<" (.var "y") (intLit 2))
          [.assignment "x" (intLit 2)] []]
      = some ([.assign "x_0" (intLit 1), .assign "x_0" (intLit 2)],
              [("x", .intv 0), ("y", .intv 0)]) := by
  exact ⟨rfl, rfl⟩

/-- C6: dead-code elimination never fires.  The assignment
`x_0 := 3` whose target is never used is **kept** by `optimizeSSA`: the
use-count map records only counts of at least 1, an unused name is
absent from it, and the elimination test compares the lookup against
exactly 0; moreover a variable read inside an assert condition
contributes nothing to the counts (the counter reads `node.right`, but
an assert stores its condition in `condition`). -/
theorem c6_dead_assignment_kept :
    optimizeSSA [.assign "x_0" (intLit 3)] = [.assign "x_0" (intLit 3)]
    ∧ (optFirstPass [.assign "x_0" (intLit 3)]).2 = []
    ∧ (optFirstPass
        [.sassert (.binaryOp ">" (.var "x_0") (intLit 0))]).2 = [] := by
  exact ⟨rfl, rfl, rfl⟩

/-- C7 (counterexample): constant folding is JavaScript evaluation, not
integer arithmetic: `y_0 := 7 / 2` folds to the literal 7/2 (= 3.5),
not the truncated 3, and `z_0 := 1 / 0` folds to the literal `Infinity`
instead of being left unevaluated (division by zero throws no exception,
so the fold is not suppressed). -/
theorem c7_counterexample :
    optimizeSSA [.assign "y_0" (.binaryOp "/" (intLit 7) (intLit 2))]
      = [.assign "y_0" (.literal (.num (.rat ⟨7, 2⟩)))]
    ∧ (⟨7, 2⟩ : JQ) ≠ JQ.ofInt 3
    ∧ optimizeSSA [.assign "z_0" (.binaryOp "/" (intLit 1) (intLit 0))]
      = [.assign "z_0" (.literal (.num .inf))]
    ∧ optimizeSSA [.assign "z_0" (.binaryOp "/" (intLit 1) (intLit 0))]
      ≠ [.assign "z_0" (.binaryOp "/" (intLit 1) (intLit 0))] := by
  refine ⟨rfl, by decide, rfl, by decide⟩

/-- C7 (amended): when both operands of a `BinaryOp` fold to literals
the optimizer replaces the node with the literal result of JavaScript
evaluation (`jsEvalOpt`): division is exact non-truncating division
(7/2 gives 3.5), division by zero gives `Infinity` and modulo by zero
gives `NaN` — values, not errors, so the fold is not suppressed; an
evaluation failure (impossible for the language's operators on numeric
operands) would leave the node unevaluated. -/
theorem c7_js_fold_semantics :
    (∀ (cs : List (String × JSVal)) (op : String) (a b v : JSVal),
        jsEvalOpt op a b = some v →
        propagateConstants cs (.binaryOp op (.literal a) (.literal b))
          = .literal v)
    ∧ jsEvalOpt "/" (.num (.rat (JQ.ofInt 7))) (.num (.rat (JQ.ofInt 2)))
        = some (.num (.rat ⟨7, 2⟩))
    ∧ jsEvalOpt "/" (.num (.rat (JQ.ofInt 1))) (.num (.rat (JQ.ofInt 0)))
        = some (.num .inf)
    ∧ jsEvalOpt "%" (.num (.rat (JQ.ofInt 5))) (.num (.rat (JQ.ofInt 0)))
        = some (.num .nan) := by
  refine ⟨?_, by decide, by decide, by decide⟩
  intro cs op a b v h
  simp [propagateConstants, propagateConstants_literal, h]

/-- C7 (witness): the fold rule applied to `7 / 2`. -/
theorem c7_js_fold_semantics_witness :
    propagateConstants []
        (.binaryOp "/" (.literal (.num (.rat (JQ.ofInt 7))))
          (.literal (.num (.rat (JQ.ofInt 2)))))
      = .literal (.num (.rat ⟨7, 2⟩)) :=
  c7_js_fold_semantics.1 [] "/" (.num (.rat (JQ.ofInt 7)))
    (.num (.rat (JQ.ofInt 2))) (.num (.rat ⟨7, 2⟩)) (by decide)

/-- C8 (counterexample): `parseExpression "1+2+3"` splits on **every**
`+` and keeps only the first two parts, producing `1 + 2` and discarding
`+3` — not `1 + (2+3)` as claimed; and `a[3]` parses as the `Variable`
named `"a[3]"`, not as an `ArrayAccess` (the array-access pattern cannot
match it). -/
theorem c8_counterexample :
    parseExpression "1+2+3"
      = .ok (.binaryOp "+" (intLit 1) (intLit 2))
    ∧ parseExpression "1+2+3"
        ≠ .ok (.binaryOp "+" (intLit 1)
            (.binaryOp "+" (intLit 2) (intLit 3)))
    ∧ parseExpression "a[3]" = .ok (.var "a[3]")
    ∧ parseExpression "a[3]" ≠ .ok (.arrayAccess "a" (intLit 3)) := by
  refine ⟨rfl, ?_, rfl, ?_⟩
  · intro h
    rw [show parseExpression "1+2+3"
          = .ok (.binaryOp "+" (intLit 1) (intLit 2)) from rfl] at h
    exact absurd (Except.ok.inj h) (by decide)
  · intro h
    rw [show parseExpression "a[3]" = .ok (.var "a[3]") from rfl] at h
    exact absurd (Except.ok.inj h) (by decide)

/-- C8 (amended): the parser scans the fixed operator list and splits
the input at every occurrence of the first operator found, recursing on
the first two parts only (`1+2+3` gives `1 + 2`, the rest is
discarded); a bare numeral becomes a `Literal`, anything else a
`Variable`; the `name[expr]` form never becomes an `ArrayAccess` —
`a[3]` becomes the `Variable` named `"a[3]"`, while an access containing
one of `( . * )` (for example `a[i*2]`) makes the parser crash on the
regex's missing second group. -/
theorem c8_split_discards_remainder :
    parseExpression "1+2+3" = .ok (.binaryOp "+" (intLit 1) (intLit 2))
    ∧ parseExpression "1+2" = .ok (.binaryOp "+" (intLit 1) (intLit 2))
    ∧ parseExpression "12" = .ok (intLit 12)
    ∧ parseExpression "abc" = .ok (.var "abc")
    ∧ parseExpression "a[3]" = .ok (.var "a[3]")
    ∧ parseExpression "a[i*2]"
        = .error "TypeError: Cannot read properties of undefined (reading trim)" := by
  exact ⟨rfl, rfl, rfl, rfl, rfl, rfl⟩

/-- C9: the parser accepts the malformed `if (x < 5 { y := 1; }` as an
**assignment** to the variable `"if (x < 5 { y"` (the line contains
`:=`, and the assignment branch is dispatched before the if-header
check), raising no error at all; and every well-formed `while` header
throws `Invalid while statement` (its regex is written with `$$`, the
end-of-input anchor, in place of escaped parentheses, so it matches
nothing), while a well-formed `for` header — which contains `:=` — is
silently misparsed as an assignment too. -/
theorem c9_header_error_behaviour :
    parseProgram "if (x < 5 \x7b y := 1; \x7d"
      = .ok [.assignment "if (x < 5 \x7b y" (.var "1; \x7d")]
    ∧ parseProgram "while (x < 5) \x7b\n  x := x + 1;\n\x7d"
        = .error "Invalid while statement: while (x < 5) \x7b"
    ∧ parseProgram "for (i := 0; i < 3; i := i + 1) \x7b\n  x := x + 1;\n\x7d"
        = .ok [.assignment "for (i"
                 (.binaryOp "<" (.var "0; i") (.var "3; i")),
               .assignment "x" (.binaryOp "+" (.var "x") (intLit 1))] := by
  exact ⟨rfl, rfl, rfl⟩

/-- C10: an output-count mismatch does **not** short-circuit: the
equivalence script gets the line `(assert false) ; Output count
mismatch` appended, still ends in `check-sat`/`get-model`, and is handed
to the solver; since `(assert false)` makes the script unsatisfiable and
`checkEquivalence` maps `unsat` to "equivalent", a sound solver would
report the mismatched programs **equivalent**, not "not equivalent". -/
theorem c10_mismatch_still_calls_solver :
    generateEquivalenceSMT [.assign "x_0" (intLit 1)]
        [.assign "x_0" (intLit 1), .assign "y_0" (intLit 2)] 3
      = .ok "(set-logic QF_LIA)\n(assert (= x_0 1))\n(assert (= x_0_p2 1))\n(assert (= y_0_p2 2))\n(assert false) ; Output count mismatch\n(check-sat)\n(get-model)\n"
    ∧ jsIncludes
        "(set-logic QF_LIA)\n(assert (= x_0 1))\n(assert (= x_0_p2 1))\n(assert (= y_0_p2 2))\n(assert false) ; Output count mismatch\n(check-sat)\n(get-model)\n"
        "(check-sat)" = true
    ∧ checkEquivalence "unsat" = true := by
  exact ⟨rfl, rfl, rfl⟩

end ProgVer
